import Mathlib

/-!
Verification development for the invoice-lab asynchronous extraction
orchestration subsystem.

The definitions below are a shallow embedding of the TypeScript sources:

* `SmartScanClient` — the transaction-poll REST adapter
  (`src/unnamed/part_003`, class `SmartScanClient`): file-type validation
  and the bounded back-off polling loop `pollForResults`.
* `MCPClient` — the JSON-RPC tool-call adapter
  (`src/apps/api/src/mcp-client.ts`): MIME mapping (`getMimeType`) and the
  handling of a JSON-RPC error object in a tool response.
* `ResultStorage` — the flat-file result store
  (`src/unnamed/part_004`): per-id record files plus the
  `filename -> [records]` index document, with `saveResult`, `getResult`,
  `getResultsByFilename`, `getAllResults` and `deleteResult`.
* `MCPProcessor.processInvoice` — the orchestrator
  (`src/apps/api/src/mcp-processor.ts`), modelled with explicit state
  passing over the store and an event trace recording the order of store
  writes, the file read and the adapter call.

Thrown JavaScript errors are modelled as `Except String` values carrying
the error message.  Timestamps (`Date.now()` / ISO strings compared via
`getTime()`) are modelled as natural numbers in milliseconds.  Sleeps
between polling attempts do not influence any computed value and are not
modelled.
-/

/-- Transaction status reported by the SmartScan back end
(`SmartScanStatusResponse.status` in `src/unnamed/part_003`). -/
inductive TxStatus
  | CREATED
  | RUNNING
  | DONE
  | FAILED
deriving DecidableEq, Repr

/-- A payload value returned by an adapter: either extraction results
(opaque here) or the literal timeout object built by
`SmartScanClient.pollForResults` with fields
`status/message/transactionId/attempts`. -/
inductive Payload
  | extraction (data : String)
  | pollTimeout (message : String) (transactionId : String) (attempts : Nat)
deriving DecidableEq, Repr

/-- The `message` field of the timeout object returned by
`pollForResults`. -/
def timeoutMessage : String :=
  "SmartSCan processing is not ready yet, please try again later."

/-- JavaScript `String.prototype.split` with a one-character separator,
over the character list of the string: `"a.txt"` splits to
`["a", "txt"]`, the empty string to `[""]`, `"a..b"` to
`["a", "", "b"]`. -/
def splitOnChar (c : Char) : List Char → List (List Char)
  | [] => [[]]
  | x :: xs =>
    let r := splitOnChar c xs
    if x = c then [] :: r
    else
      match r with
      | [] => [[x]]
      | y :: ys => (x :: y) :: ys

/-- ASCII-style lowercasing of a string, character by character
(kernel-computable counterpart of `toLowerCase`). -/
def lowerStr (s : String) : String :=
  String.mk (s.data.map Char.toLower)

/-- Suffix test on strings via their character lists
(kernel-computable counterpart of `endsWith`). -/
def strEndsWith (s suffix : String) : Bool :=
  suffix.data == s.data.drop (s.data.length - suffix.data.length)

/-- The character `.` (written via its code point to keep every
character literal out of string-handling code). -/
def dotChar : Char := Char.ofNat 46

namespace SmartScanClient

/-- Supported extensions checked by `processDocument` (part_003 line 766). -/
def supportedTypes : List String :=
  ["pdf", "jpg", "jpeg", "png", "bmp", "webp", "tif", "gif", "heif", "heic"]

/-- `filename.split('.').pop()?.toLowerCase()` (part_003 line 765). -/
def extOf (filename : String) : String :=
  String.mk ((((splitOnChar dotChar filename.data).getLast?).getD []).map Char.toLower)

/-- The validation step of `processDocument` (part_003 lines 763-774):
throws on an unsupported extension before any network call. -/
def validateFileType (filename : String) : Except String Unit :=
  let ext := extOf filename
  if supportedTypes.contains ext then Except.ok ()
  else Except.error ("Unsupported file type: " ++ ext ++ ". Supported types: "
    ++ String.intercalate ", " supportedTypes)

/-- `const maxAttempts = 20` (part_003 line 971). -/
def maxAttempts : Nat := 20

/-- `const baseDelayMs = 3000` (part_003 line 972). -/
def baseDelayMs : Nat := 3000

/-- The retry delay computed in `pollForResults` (part_003 lines
1008-1015): base delay, plus one second per attempt past the first,
capped at ten seconds.  It affects only sleeping, never a returned
value. -/
def delayMsFor (attempt : Nat) : Nat :=
  let d := if attempt ≥ 2 then baseDelayMs + (attempt - 1) * 1000 else baseDelayMs
  if d > 10000 then 10000 else d

/-- One run of the polling loop of `pollForResults` (part_003 lines
978-1061), starting at attempt number `attempt` with `fuel` loop
iterations remaining (the wrapper passes `fuel = maxA`, so `fuel`
reaches `0` only when the `for` condition `attempt <= maxAttempts`
fails, which is the unreachable fall-through at line 1055).

`statusAt k` is the outcome of `getTransactionStatus` on the attempt
numbered `k` (an `Except` error is a thrown transport error);
`resultsAt k` is the outcome of `getTransactionResults` on that attempt.

Returns the payload produced by the loop together with the number of
`getTransactionStatus` invocations it performed.  Inside the loop:
status `DONE` fetches and returns the results; status `FAILED` throws
`Transaction failed` — an error that the surrounding `catch` of the same
iteration absorbs, retrying exactly like a transport error; pending
statuses fall through to the last-attempt check. -/
def pollAux (statusAt : Nat → Except String TxStatus)
    (resultsAt : Nat → Except String String) (tid : String) (maxA : Nat) :
    Nat → Nat → Payload × Nat
  | _, 0 => (Payload.pollTimeout timeoutMessage tid maxA, 0)
  | attempt, fuel + 1 =>
    match statusAt attempt with
    | Except.ok TxStatus.DONE =>
      match resultsAt attempt with
      | Except.ok res => (Payload.extraction res, 1)
      | Except.error _ =>
        if attempt = maxA then (Payload.pollTimeout timeoutMessage tid maxA, 1)
        else
          let r := pollAux statusAt resultsAt tid maxA (attempt + 1) fuel
          (r.1, r.2 + 1)
    | Except.ok TxStatus.FAILED =>
      if attempt = maxA then (Payload.pollTimeout timeoutMessage tid maxA, 1)
      else
        let r := pollAux statusAt resultsAt tid maxA (attempt + 1) fuel
        (r.1, r.2 + 1)
    | Except.ok _ =>
      if attempt = maxA then (Payload.pollTimeout timeoutMessage tid maxA, 1)
      else
        let r := pollAux statusAt resultsAt tid maxA (attempt + 1) fuel
        (r.1, r.2 + 1)
    | Except.error _ =>
      if attempt = maxA then (Payload.pollTimeout timeoutMessage tid maxA, 1)
      else
        let r := pollAux statusAt resultsAt tid maxA (attempt + 1) fuel
        (r.1, r.2 + 1)

/-- The polling loop run with an arbitrary attempt budget `n`
(attempts `1..n`). -/
def pollWithBudget (statusAt : Nat → Except String TxStatus)
    (resultsAt : Nat → Except String String) (tid : String) (n : Nat) :
    Payload × Nat :=
  pollAux statusAt resultsAt tid n 1 n

/-- `SmartScanClient.pollForResults` (part_003 lines 970-1061): the loop
with the source's hard-coded budget of `maxAttempts = 20`.  The function
is total and never throws: every thrown error inside an iteration is
caught by the iteration's own `catch`. -/
def pollForResults (statusAt : Nat → Except String TxStatus)
    (resultsAt : Nat → Except String String) (tid : String) : Payload :=
  (pollWithBudget statusAt resultsAt tid maxAttempts).1

/-- A status outcome is pending when the back end reports `CREATED` or
`RUNNING`. -/
def isPending : Except String TxStatus → Bool
  | Except.ok TxStatus.CREATED => true
  | Except.ok TxStatus.RUNNING => true
  | _ => false

end SmartScanClient

example : SmartScanClient.validateFileType "inv-001.pdf" = Except.ok () := by rfl
example : (SmartScanClient.validateFileType "inv.txt").isOk = false := by rfl
example :
    SmartScanClient.pollForResults (fun _ => Except.ok TxStatus.RUNNING)
      (fun _ => Except.error "e") "tx1"
      = Payload.pollTimeout timeoutMessage "tx1" 20 := by decide
example :
    SmartScanClient.pollWithBudget (fun _ => Except.ok TxStatus.FAILED)
      (fun _ => Except.error "e") "tx1" 20
      = (Payload.pollTimeout timeoutMessage "tx1" 20, 20) := by decide
example :
    SmartScanClient.pollWithBudget
      (fun k => Except.ok (if k ≤ 2 then TxStatus.RUNNING else TxStatus.DONE))
      (fun _ => Except.ok "payload") "tx1" 20
      = (Payload.extraction "payload", 3) := by decide

/-- Client identity forwarded verbatim to the back end
(`ClientInfo` in `src/apps/api/src/mcp-client.ts`). -/
structure ClientInfo where
  businessId : String
  name : String
  country : String
deriving DecidableEq, Repr

/-- The `status` field of a persisted `ProcessingResult`
(`src/apps/api/src/mcp-client.ts` line 45): the union type admits exactly
the three literals `processing`, `completed` and `failed`. -/
inductive Status
  | processing
  | completed
  | failed
deriving DecidableEq, Repr

/-- The string literal a `Status` stands for. -/
def statusStr : Status → String
  | Status.processing => "processing"
  | Status.completed => "completed"
  | Status.failed => "failed"

/-- The durable job record (`ProcessingResult` in
`src/apps/api/src/mcp-client.ts` lines 40-52).  Timestamps are
milliseconds; optional fields are `Option`. -/
structure ProcessingResult where
  id : String
  filename : String
  configId : String
  clientInfo : ClientInfo
  status : Status
  result : Option Payload
  error : Option String
  createdAt : Nat
  completedAt : Option Nat
  duration : Option Nat
  mcpResponse : Option Payload
deriving DecidableEq, Repr

namespace MCPClient

/-- `MCPClient.getMimeType` (`mcp-client.ts` lines 206-218): maps the
lowercased filename suffix to a MIME type, defaulting every unknown
extension to `image/png` — there is no rejection branch. -/
def getMimeType (filename : String) : String :=
  let lower := lowerStr filename
  if strEndsWith lower ".pdf" then "application/pdf"
  else if strEndsWith lower ".png" then "image/png"
  else if strEndsWith lower ".jpg" || strEndsWith lower ".jpeg" then "image/jpeg"
  else "image/png"

/-- A JSON-RPC error object (`MCPToolResponse.error` in
`mcp-client.ts` lines 26-30). -/
structure MCPError where
  code : Int
  message : String
deriving DecidableEq, Repr

/-- A JSON-RPC tool-call response (`MCPToolResponse` in
`mcp-client.ts` lines 22-31). -/
structure MCPToolResponse where
  rpcId : Nat
  result : Option Payload
  error : Option MCPError
deriving DecidableEq, Repr

/-- The tail of `MCPClient.processInvoice` (`mcp-client.ts` lines
197-203): if the tool response carries an error object, throw an error
built from the error message alone; otherwise return the result. -/
def handleToolResponse (resp : MCPToolResponse) : Except String (Option Payload) :=
  match resp.error with
  | some e => Except.error ("MCP tool error: " ++ e.message)
  | none => Except.ok resp.result

end MCPClient

example : MCPClient.getMimeType "Invoice.PDF" = "application/pdf" := by decide
example : MCPClient.getMimeType "scan.jpeg" = "image/jpeg" := by decide
example : MCPClient.getMimeType "notes.txt" = "image/png" := by decide

/-- Association-list lookup keyed by strings, modelling both the per-id
record files of `ResultStorage` and the key/value pairs of the JSON
index document. -/
def alistGet {β : Type} (k : String) : List (String × β) → Option β
  | [] => none
  | p :: rest => if p.1 = k then some p.2 else alistGet k rest

/-- Association-list write: overwrite the entry for `k` when present,
append it otherwise (a JSON object write / file overwrite). -/
def alistPut {β : Type} (k : String) (v : β) : List (String × β) → List (String × β)
  | [] => [(k, v)]
  | p :: rest => if p.1 = k then (k, v) :: rest else p :: alistPut k v rest

/-- Association-list removal of every entry for `k` (file unlink /
`delete index[filename]`). -/
def alistErase {β : Type} (k : String) : List (String × β) → List (String × β)
  | [] => []
  | p :: rest => if p.1 = k then alistErase k rest else p :: alistErase k rest

/-- `arr.sort((a, b) => new Date(b.createdAt).getTime() - new
Date(a.createdAt).getTime())`: stable sort, newest first. -/
def sortByCreatedDesc (l : List ProcessingResult) : List ProcessingResult :=
  l.insertionSort (fun a b => b.createdAt ≤ a.createdAt)

/-- The durable state of `ResultStorage` (`src/unnamed/part_004`): the
per-id record files `processing-<id>.json` and the `index.json` document
mapping a filename to its list of records. -/
structure StorageState where
  records : List (String × ProcessingResult)
  index : List (String × List ProcessingResult)
deriving DecidableEq, Repr

/-- A storage directory with no record files and no index entries. -/
def emptyStore : StorageState := ⟨[], []⟩

namespace ResultStorage

/-- `ResultStorage.updateIndex` (part_004 lines 63-92): read the index,
drop any entry with the record's id from the record's filename bucket,
push the record, re-sort the bucket newest first, write the index
back. -/
def updateIndex (r : ProcessingResult)
    (index : List (String × List ProcessingResult)) :
    List (String × List ProcessingResult) :=
  let bucket := (alistGet r.filename index).getD []
  let bucket := bucket.filter (fun x => x.id ≠ r.id)
  let bucket := bucket ++ [r]
  alistPut r.filename (sortByCreatedDesc bucket) index

/-- `ResultStorage.saveResult` (part_004 lines 16-23): write the record
file keyed by id, then update the index. -/
def saveResult (r : ProcessingResult) (st : StorageState) : StorageState :=
  ⟨alistPut r.id r st.records, updateIndex r st.index⟩

/-- `ResultStorage.getResult` (part_004 lines 25-33): read the record
file for the id, `none` when it is missing. -/
def getResult (id : String) (st : StorageState) : Option ProcessingResult :=
  alistGet id st.records

/-- `ResultStorage.getResultsByFilename` (part_004 lines 35-44):
`index[filename] || []`. -/
def getResultsByFilename (filename : String) (st : StorageState) :
    List ProcessingResult :=
  (alistGet filename st.index).getD []

/-- `ResultStorage.getAllResults` (part_004 lines 46-61): flatten every
bucket of the index in order, then sort newest first. -/
def getAllResults (st : StorageState) : List ProcessingResult :=
  sortByCreatedDesc (st.index.map Prod.snd).flatten

/-- `ResultStorage.deleteResult` (part_004 lines 94-124): unlink the
record file — when it is absent the `unlink` throws and the function
returns `false` with nothing mutated; otherwise prune the id from every
bucket of the index, drop buckets left empty, and return `true`. -/
def deleteResult (id : String) (st : StorageState) : Bool × StorageState :=
  match alistGet id st.records with
  | none => (false, st)
  | some _ =>
    let records := alistErase id st.records
    let index := (st.index.map
      (fun p => (p.1, p.2.filter (fun x => x.id ≠ id)))).filter
      (fun p => p.2 ≠ [])
    (true, ⟨records, index⟩)

end ResultStorage

/-- Observable side effects of one orchestration call, in execution
order: a store write (`resultStorage.saveResult`), the document file
read (`fs.readFile`), and the adapter network call
(`mcpClient.processInvoice`). -/
inductive Event
  | storeWrite (r : ProcessingResult)
  | fileReadEv (filename : String)
  | adapterCall (filename : String)
deriving DecidableEq, Repr

/-- Result of one orchestration call: what `processInvoice` returned or
re-threw, the storage state it left behind, and the event trace. -/
structure OrchestrationRun where
  outcome : Except String ProcessingResult
  finalState : StorageState
  trace : List Event
deriving Repr

namespace MCPProcessor

/-- The initial record built by `MCPProcessor.processInvoice`
(`mcp-processor.ts` lines 27-34): freshly allocated id, the given
filename, config id and client info, status `processing`, creation
timestamp, and no terminal fields. -/
def initialRecord (filename configId : String) (ci : ClientInfo)
    (pid : String) (t0 : Nat) : ProcessingResult :=
  ⟨pid, filename, configId, ci, Status.processing, none, none, t0, none, none, none⟩

/-- `MCPProcessor.processInvoice` (`mcp-processor.ts` lines 16-76),
with its effects made explicit:

* `fileRead` — outcome of `fs.readFile` on the named file (the bytes, or
  the thrown error's message);
* `adapter` — outcome of `mcpClient.processInvoice` on those bytes;
* `pid` — the `randomUUID()` value; `t0`/`t1` — `Date.now()` at start
  and at the terminal write.

The body: persist the initial `processing` record, read the file, call
the adapter, then persist the `completed` record and return it; any
thrown error is caught, a `failed` record with the error message,
completion time and duration is persisted, and the same error is
re-thrown. -/
def processInvoice (filename configId : String) (ci : ClientInfo)
    (fileRead : Except String String)
    (adapter : String → Except String (Option Payload))
    (pid : String) (t0 t1 : Nat) (st : StorageState) : OrchestrationRun :=
  let result := initialRecord filename configId ci pid t0
  let st1 := ResultStorage.saveResult result st
  let ev0 := [Event.storeWrite result]
  match fileRead with
  | Except.error e =>
    let failed := { result with
      status := Status.failed, error := some e,
      completedAt := some t1, duration := some (t1 - t0) }
    ⟨Except.error e, ResultStorage.saveResult failed st1,
      ev0 ++ [Event.fileReadEv filename, Event.storeWrite failed]⟩
  | Except.ok fileData =>
    match adapter fileData with
    | Except.error e =>
      let failed := { result with
        status := Status.failed, error := some e,
        completedAt := some t1, duration := some (t1 - t0) }
      ⟨Except.error e, ResultStorage.saveResult failed st1,
        ev0 ++ [Event.fileReadEv filename, Event.adapterCall filename,
          Event.storeWrite failed]⟩
    | Except.ok payload =>
      let completed := { result with
        status := Status.completed, result := payload,
        completedAt := some t1, duration := some (t1 - t0),
        mcpResponse := payload }
      ⟨Except.ok completed, ResultStorage.saveResult completed st1,
        ev0 ++ [Event.fileReadEv filename, Event.adapterCall filename,
          Event.storeWrite completed]⟩

end MCPProcessor

/-- Boolean success test for a modelled call that can throw. -/
def exceptOk {ε α : Type} : Except ε α → Bool
  | Except.ok _ => true
  | Except.error _ => false

section AlistLemmas

variable {β : Type}

theorem alistGet_put_same (k : String) (v : β) (l : List (String × β)) :
    alistGet k (alistPut k v l) = some v := by
  induction l with
  | nil => simp [alistGet, alistPut]
  | cons p rest ih =>
    by_cases h : p.1 = k
    · simp [alistPut, alistGet, h]
    · simp [alistPut, alistGet, h, ih]

theorem alistPut_put_same (k : String) (v v' : β) (l : List (String × β)) :
    alistPut k v (alistPut k v' l) = alistPut k v l := by
  induction l with
  | nil => simp [alistPut]
  | cons p rest ih =>
    by_cases h : p.1 = k
    · simp [alistPut, h]
    · simp [alistPut, h, ih]

theorem mem_alistPut (k : String) (v : β) (l : List (String × β)) (p : String × β)
    (h : p ∈ alistPut k v l) : p = (k, v) ∨ p ∈ l := by
  induction l with
  | nil => simpa [alistPut] using h
  | cons q rest ih =>
    simp only [alistPut] at h
    by_cases hq : q.1 = k
    · rw [if_pos hq] at h
      rcases List.mem_cons.mp h with h1 | h1
      · exact Or.inl h1
      · exact Or.inr (List.mem_cons_of_mem _ h1)
    · rw [if_neg hq] at h
      rcases List.mem_cons.mp h with h1 | h1
      · refine Or.inr ?_
        rw [h1]
        exact List.mem_cons_self _ _
      · rcases ih h1 with h2 | h2
        · exact Or.inl h2
        · exact Or.inr (List.mem_cons_of_mem _ h2)

theorem alistGet_mem (k : String) (v : β) (l : List (String × β))
    (h : alistGet k l = some v) : (k, v) ∈ l := by
  induction l with
  | nil => simp [alistGet] at h
  | cons p rest ih =>
    simp only [alistGet] at h
    by_cases hp : p.1 = k
    · rw [if_pos hp] at h
      injection h with h2
      cases p with
      | mk a b =>
        have ha : a = k := hp
        have hb : b = v := h2
        subst ha
        subst hb
        exact List.mem_cons_self _ _
    · rw [if_neg hp] at h
      exact List.mem_cons_of_mem _ (ih h)

theorem alistGet_erase_self (k : String) (l : List (String × β)) :
    alistGet k (alistErase k l) = none := by
  induction l with
  | nil => simp [alistErase, alistGet]
  | cons p rest ih =>
    by_cases hp : p.1 = k
    · simp [alistErase, hp, ih]
    · simp [alistErase, alistGet, hp, ih]

end AlistLemmas

namespace SmartScanClient

theorem pollAux_calls_le (statusAt : Nat → Except String TxStatus)
    (resultsAt : Nat → Except String String) (tid : String) (maxA : Nat) :
    ∀ fuel attempt, (pollAux statusAt resultsAt tid maxA attempt fuel).2 ≤ fuel := by
  intro fuel
  induction fuel with
  | zero => intro attempt; simp [pollAux]
  | succ n ih =>
    intro attempt
    have h1 := ih (attempt + 1)
    simp only [pollAux]
    split
    · split
      · simp
      · split
        · simp
        · simpa using Nat.succ_le_succ h1
    · split
      · simp
      · simpa using Nat.succ_le_succ h1
    · split
      · simp
      · simpa using Nat.succ_le_succ h1
    · split
      · simp
      · simpa using Nat.succ_le_succ h1

theorem pollAux_pending_timeout (statusAt : Nat → Except String TxStatus)
    (resultsAt : Nat → Except String String) (tid : String) (maxA : Nat)
    (hp : ∀ k, isPending (statusAt k) = true) :
    ∀ fuel attempt, (pollAux statusAt resultsAt tid maxA attempt fuel).1 =
      Payload.pollTimeout timeoutMessage tid maxA := by
  intro fuel
  induction fuel with
  | zero => intro attempt; simp [pollAux]
  | succ n ih =>
    intro attempt
    have hk := hp attempt
    cases hs : statusAt attempt with
    | error e => rw [hs] at hk; simp [isPending] at hk
    | ok s =>
      cases s with
      | DONE => rw [hs] at hk; simp [isPending] at hk
      | FAILED => rw [hs] at hk; simp [isPending] at hk
      | CREATED =>
        simp only [pollAux, hs]
        split
        · rfl
        · simpa using ih (attempt + 1)
      | RUNNING =>
        simp only [pollAux, hs]
        split
        · rfl
        · simpa using ih (attempt + 1)

end SmartScanClient

/-- C4: for any attempt budget `n`, the polling loop invokes the
status-check function (`getTransactionStatus`) at most `n` times, and
when every status check reports still-pending it returns — as a value,
never a thrown error (the return type of the loop has no error case) —
the timeout outcome carrying the attempt budget. -/
theorem poller_bounded_and_timeout_on_exhaustion
    (statusAt : Nat → Except String TxStatus)
    (resultsAt : Nat → Except String String) (tid : String) (n : Nat) :
    (SmartScanClient.pollWithBudget statusAt resultsAt tid n).2 ≤ n ∧
    ((∀ k, SmartScanClient.isPending (statusAt k) = true) →
      (SmartScanClient.pollWithBudget statusAt resultsAt tid n).1 =
        Payload.pollTimeout timeoutMessage tid n) := by
  constructor
  · exact SmartScanClient.pollAux_calls_le statusAt resultsAt tid n n 1
  · intro hp
    exact SmartScanClient.pollAux_pending_timeout statusAt resultsAt tid n hp n 1

/-- Witness for `poller_bounded_and_timeout_on_exhaustion` at the
source's own budget of 20 attempts with an always-pending back end. -/
theorem poller_bounded_and_timeout_on_exhaustion_witness :
    (SmartScanClient.pollWithBudget (fun _ => Except.ok TxStatus.RUNNING)
      (fun _ => Except.error "transport down") "tx1" 20).2 ≤ 20 ∧
    (SmartScanClient.pollWithBudget (fun _ => Except.ok TxStatus.RUNNING)
      (fun _ => Except.error "transport down") "tx1" 20).1 =
      Payload.pollTimeout timeoutMessage "tx1" 20 :=
  ⟨(poller_bounded_and_timeout_on_exhaustion (fun _ => Except.ok TxStatus.RUNNING)
      (fun _ => Except.error "transport down") "tx1" 20).1,
   (poller_bounded_and_timeout_on_exhaustion (fun _ => Except.ok TxStatus.RUNNING)
      (fun _ => Except.error "transport down") "tx1" 20).2 (fun _ => rfl)⟩

/-- C5: evaluation of `pollForResults` at the failing input.  When the
back end reports the provider-declared `FAILED` state on every status
call, the loop does NOT stop after the first attempt with a terminal
failed value: the `throw new Error("Transaction failed: ...")` inside the
`try` block is caught by the same iteration's own `catch`, which treats
it as retryable, so all 20 status checks are performed and the loop
finally returns the timeout payload. -/
theorem poller_failed_status_swallowed_by_own_catch :
    SmartScanClient.pollWithBudget (fun _ => Except.ok TxStatus.FAILED)
      (fun _ => Except.error "unused") "tx1" 20
      = (Payload.pollTimeout timeoutMessage "tx1" 20, 20) := by decide

/-- C1 counterexample: with a back end that reports still-pending on
every one of the 20 attempts, `pollForResults` returns (without
throwing) the timeout payload; an orchestration receiving that payload
as its adapter's successful outcome persists the job with status
`completed`, not `timeout` — and indeed no value of the record status
type renders as the string `timeout`. -/
theorem persisted_timeout_status_counterexample :
    (SmartScanClient.pollForResults (fun _ => Except.ok TxStatus.RUNNING)
        (fun _ => Except.error "e") "tx1"
      = Payload.pollTimeout timeoutMessage "tx1" 20) ∧
    (exceptOk (MCPProcessor.processInvoice "inv-001.pdf" "cfg-1"
        ⟨"VAT123", "Acme", "FI"⟩ (Except.ok "bytes")
        (fun _ => Except.ok (some (SmartScanClient.pollForResults
          (fun _ => Except.ok TxStatus.RUNNING) (fun _ => Except.error "e") "tx1")))
        "job-1" 0 5 emptyStore).outcome = true) ∧
    ((ResultStorage.getResult "job-1" (MCPProcessor.processInvoice "inv-001.pdf" "cfg-1"
        ⟨"VAT123", "Acme", "FI"⟩ (Except.ok "bytes")
        (fun _ => Except.ok (some (SmartScanClient.pollForResults
          (fun _ => Except.ok TxStatus.RUNNING) (fun _ => Except.error "e") "tx1")))
        "job-1" 0 5 emptyStore).finalState).map (fun x => statusStr x.status)
      = some "completed") ∧
    statusStr Status.processing ≠ "timeout" ∧
    statusStr Status.completed ≠ "timeout" ∧
    statusStr Status.failed ≠ "timeout" := by decide

/-- C1 (amended): when every status check reports still-pending for the
whole budget, the poller returns — without throwing — a payload whose own
`status` field is the string `timeout`, carrying the attempt budget; but
the persisted job record never has status `timeout`: the record status
type admits only `processing`, `completed` and `failed`, and an
orchestration that receives the poller's non-thrown outcome as a
successful adapter result persists the job as `completed` with the
timeout payload stored in its `result` field, returning it without
throwing. -/
theorem pending_exhaustion_persists_completed
    (statusAt : Nat → Except String TxStatus)
    (resultsAt : Nat → Except String String)
    (tid fn cfg : String) (ci : ClientInfo) (fdata pid : String) (t0 t1 : Nat)
    (st : StorageState)
    (hp : ∀ k, SmartScanClient.isPending (statusAt k) = true) :
    SmartScanClient.pollForResults statusAt resultsAt tid
      = Payload.pollTimeout timeoutMessage tid SmartScanClient.maxAttempts ∧
    (exceptOk (MCPProcessor.processInvoice fn cfg ci (Except.ok fdata)
        (fun _ => Except.ok (some (SmartScanClient.pollForResults statusAt resultsAt tid)))
        pid t0 t1 st).outcome = true) ∧
    ((ResultStorage.getResult pid (MCPProcessor.processInvoice fn cfg ci (Except.ok fdata)
        (fun _ => Except.ok (some (SmartScanClient.pollForResults statusAt resultsAt tid)))
        pid t0 t1 st).finalState).map (fun x => x.status) = some Status.completed) ∧
    (∀ s : Status, statusStr s ≠ "timeout") := by
  refine ⟨?_, ?_, ?_, ?_⟩
  · exact SmartScanClient.pollAux_pending_timeout statusAt resultsAt tid
      SmartScanClient.maxAttempts hp SmartScanClient.maxAttempts 1
  · rfl
  · simp [MCPProcessor.processInvoice, MCPProcessor.initialRecord,
      ResultStorage.saveResult, ResultStorage.getResult, alistGet_put_same]
  · intro s
    cases s <;> decide

/-- Witness for `pending_exhaustion_persists_completed` with an
always-`RUNNING` back end and a concrete orchestration over the empty
store. -/
theorem pending_exhaustion_persists_completed_witness :
    SmartScanClient.pollForResults (fun _ => Except.ok TxStatus.RUNNING)
        (fun _ => Except.error "e") "tx1"
      = Payload.pollTimeout timeoutMessage "tx1" SmartScanClient.maxAttempts ∧
    (exceptOk (MCPProcessor.processInvoice "inv-001.pdf" "cfg-1"
        ⟨"VAT123", "Acme", "FI"⟩ (Except.ok "bytes")
        (fun _ => Except.ok (some (SmartScanClient.pollForResults
          (fun _ => Except.ok TxStatus.RUNNING) (fun _ => Except.error "e") "tx1")))
        "job-1" 0 5 emptyStore).outcome = true) ∧
    ((ResultStorage.getResult "job-1" (MCPProcessor.processInvoice "inv-001.pdf" "cfg-1"
        ⟨"VAT123", "Acme", "FI"⟩ (Except.ok "bytes")
        (fun _ => Except.ok (some (SmartScanClient.pollForResults
          (fun _ => Except.ok TxStatus.RUNNING) (fun _ => Except.error "e") "tx1")))
        "job-1" 0 5 emptyStore).finalState).map (fun x => x.status)
      = some Status.completed) ∧
    (∀ s : Status, statusStr s ≠ "timeout") :=
  pending_exhaustion_persists_completed (fun _ => Except.ok TxStatus.RUNNING)
    (fun _ => Except.error "e") "tx1" "inv-001.pdf" "cfg-1" ⟨"VAT123", "Acme", "FI"⟩
    "bytes" "job-1" 0 5 emptyStore (fun _ => rfl)

/-- C2: the very first observable effect of `processInvoice` is the
store write of the record carrying the freshly allocated id with status
`processing` — it precedes the file read and the adapter call in the
trace; and when the file read throws (file missing), the call fails but
a record for that id is still persisted. -/
theorem initial_processing_record_written_first
    (fn cfg : String) (ci : ClientInfo) (fileRead : Except String String)
    (adapter : String → Except String (Option Payload))
    (pid : String) (t0 t1 : Nat) (st : StorageState) :
    ((MCPProcessor.processInvoice fn cfg ci fileRead adapter pid t0 t1 st).trace.head?
      = some (Event.storeWrite (MCPProcessor.initialRecord fn cfg ci pid t0))) ∧
    (MCPProcessor.initialRecord fn cfg ci pid t0).id = pid ∧
    (MCPProcessor.initialRecord fn cfg ci pid t0).status = Status.processing ∧
    (∀ e, fileRead = Except.error e →
      exceptOk (MCPProcessor.processInvoice fn cfg ci fileRead adapter pid t0 t1 st).outcome
        = false ∧
      (ResultStorage.getResult pid
        (MCPProcessor.processInvoice fn cfg ci fileRead adapter pid t0 t1 st).finalState).isSome
        = true) := by
  refine ⟨?_, rfl, rfl, ?_⟩
  · cases fileRead with
    | error e => rfl
    | ok d => cases hA : adapter d <;> simp [MCPProcessor.processInvoice, hA]
  · intro e he
    subst he
    constructor
    · rfl
    · simp [MCPProcessor.processInvoice, MCPProcessor.initialRecord,
        ResultStorage.saveResult, ResultStorage.getResult, alistGet_put_same]

/-- Witness for `initial_processing_record_written_first` on a missing
file over the empty store. -/
theorem initial_processing_record_written_first_witness :
    ((MCPProcessor.processInvoice "missing.pdf" "cfg-1" ⟨"VAT123", "Acme", "FI"⟩
        (Except.error "ENOENT") (fun _ => Except.ok none) "job-2" 0 7 emptyStore).trace.head?
      = some (Event.storeWrite
          (MCPProcessor.initialRecord "missing.pdf" "cfg-1" ⟨"VAT123", "Acme", "FI"⟩ "job-2" 0))) ∧
    (exceptOk (MCPProcessor.processInvoice "missing.pdf" "cfg-1" ⟨"VAT123", "Acme", "FI"⟩
        (Except.error "ENOENT") (fun _ => Except.ok none) "job-2" 0 7 emptyStore).outcome
      = false) ∧
    ((ResultStorage.getResult "job-2"
        (MCPProcessor.processInvoice "missing.pdf" "cfg-1" ⟨"VAT123", "Acme", "FI"⟩
          (Except.error "ENOENT") (fun _ => Except.ok none) "job-2" 0 7 emptyStore).finalState).isSome
      = true) := by
  have h := initial_processing_record_written_first "missing.pdf" "cfg-1"
    ⟨"VAT123", "Acme", "FI"⟩ (Except.error "ENOENT") (fun _ => Except.ok none)
    "job-2" 0 7 emptyStore
  exact ⟨h.1, (h.2.2.2 "ENOENT" rfl).1, (h.2.2.2 "ENOENT" rfl).2⟩

/-- C3: whenever the file read or the adapter call throws,
`processInvoice` persists the job as `failed` with the thrown error's
message, completion time and duration, re-throws the same error, and the
failed record remains queryable via `getResult`. -/
theorem failure_persisted_and_rethrown
    (fn cfg : String) (ci : ClientInfo) (fileRead : Except String String)
    (adapter : String → Except String (Option Payload))
    (pid : String) (t0 t1 : Nat) (st : StorageState) (e : String)
    (h : fileRead = Except.error e ∨
      ∃ d, fileRead = Except.ok d ∧ adapter d = Except.error e) :
    (MCPProcessor.processInvoice fn cfg ci fileRead adapter pid t0 t1 st).outcome
      = Except.error e ∧
    ResultStorage.getResult pid
      (MCPProcessor.processInvoice fn cfg ci fileRead adapter pid t0 t1 st).finalState
      = some { MCPProcessor.initialRecord fn cfg ci pid t0 with
          status := Status.failed, error := some e,
          completedAt := some t1, duration := some (t1 - t0) } := by
  rcases h with h | ⟨d, hd, ha⟩
  · subst h
    exact ⟨rfl, by simp [MCPProcessor.processInvoice, MCPProcessor.initialRecord,
      ResultStorage.saveResult, ResultStorage.getResult, alistGet_put_same]⟩
  · subst hd
    constructor
    · simp [MCPProcessor.processInvoice, ha]
    · simp [MCPProcessor.processInvoice, MCPProcessor.initialRecord, ha,
        ResultStorage.saveResult, ResultStorage.getResult, alistGet_put_same]

/-- Witness for `failure_persisted_and_rethrown` with an adapter that
throws a transport error. -/
theorem failure_persisted_and_rethrown_witness :
    (MCPProcessor.processInvoice "inv-001.pdf" "cfg-1" ⟨"VAT123", "Acme", "FI"⟩
        (Except.ok "bytes") (fun _ => Except.error "MCP tool call error: 500")
        "job-3" 0 9 emptyStore).outcome
      = Except.error "MCP tool call error: 500" ∧
    ResultStorage.getResult "job-3"
      (MCPProcessor.processInvoice "inv-001.pdf" "cfg-1" ⟨"VAT123", "Acme", "FI"⟩
        (Except.ok "bytes") (fun _ => Except.error "MCP tool call error: 500")
        "job-3" 0 9 emptyStore).finalState
      = some { MCPProcessor.initialRecord "inv-001.pdf" "cfg-1" ⟨"VAT123", "Acme", "FI"⟩
          "job-3" 0 with
          status := Status.failed, error := some "MCP tool call error: 500",
          completedAt := some 9, duration := some 9 } :=
  failure_persisted_and_rethrown "inv-001.pdf" "cfg-1" ⟨"VAT123", "Acme", "FI"⟩
    (Except.ok "bytes") (fun _ => Except.error "MCP tool call error: 500")
    "job-3" 0 9 emptyStore "MCP tool call error: 500"
    (Or.inr ⟨"bytes", rfl, rfl⟩)

theorem mem_pruned_bucket (id fn : String)
    (idx : List (String × List ProcessingResult)) (x : ProcessingResult)
    (hx : x ∈ (alistGet fn ((idx.map
      (fun p => (p.1, p.2.filter (fun y => y.id ≠ id)))).filter
      (fun p => p.2 ≠ []))).getD []) : x.id ≠ id := by
  cases hg : alistGet fn ((idx.map
      (fun p => (p.1, p.2.filter (fun y => y.id ≠ id)))).filter
      (fun p => p.2 ≠ [])) with
  | none => rw [hg] at hx; simp at hx
  | some b =>
    rw [hg] at hx
    simp only [Option.getD_some] at hx
    have hmem := alistGet_mem fn b _ hg
    have hmap := (List.mem_filter.mp hmem).1
    rcases List.mem_map.mp hmap with ⟨p, _, heq⟩
    have hb : b = p.2.filter (fun y => y.id ≠ id) := by
      have := congrArg Prod.snd heq
      simpa using this.symm
    rw [hb] at hx
    exact of_decide_eq_true (List.mem_filter.mp hx).2

theorem pruned_no_empty (id : String)
    (idx : List (String × List ProcessingResult)) :
    ∀ p ∈ (idx.map
      (fun p => (p.1, p.2.filter (fun y => y.id ≠ id)))).filter
      (fun p => p.2 ≠ []), p.2 ≠ [] := by
  intro p hp
  exact of_decide_eq_true (List.mem_filter.mp hp).2

/-- C7: when the record file for `id` exists, `deleteResult` returns
`true`, the per-id record is gone, no filename's bucket in the index
still contains a record with that id, and a bucket left empty by the
removal is removed entirely rather than kept as an empty list. -/
theorem deleteResult_prunes_index (id : String) (st : StorageState)
    (r : ProcessingResult) (h : ResultStorage.getResult id st = some r) :
    ((ResultStorage.deleteResult id st).1 = true) ∧
    (∀ fn x, x ∈ ResultStorage.getResultsByFilename fn
      (ResultStorage.deleteResult id st).2 → x.id ≠ id) ∧
    (∀ p ∈ (ResultStorage.deleteResult id st).2.index, p.2 ≠ []) ∧
    ResultStorage.getResult id (ResultStorage.deleteResult id st).2 = none := by
  have hrec : alistGet id st.records = some r := h
  refine ⟨?_, ?_, ?_, ?_⟩
  · simp [ResultStorage.deleteResult, hrec]
  · intro fn x hx
    simp only [ResultStorage.deleteResult, hrec, ResultStorage.getResultsByFilename] at hx
    exact mem_pruned_bucket id fn st.index x hx
  · intro p hp
    simp only [ResultStorage.deleteResult, hrec] at hp
    exact pruned_no_empty id st.index p hp
  · simp [ResultStorage.deleteResult, hrec, ResultStorage.getResult, alistGet_erase_self]

/-- A concrete completed record used by witnesses below. -/
def sampleRecord : ProcessingResult :=
  ⟨"j1", "inv-001.pdf", "cfg-1", ⟨"VAT123", "Acme", "FI"⟩, Status.completed,
    some (Payload.extraction "fields"), none, 3, some 9, some 6, none⟩

/-- Witness for `deleteResult_prunes_index` on a one-record store whose
only bucket becomes empty. -/
theorem deleteResult_prunes_index_witness :
    ((ResultStorage.deleteResult "j1"
      ⟨[("j1", sampleRecord)], [("inv-001.pdf", [sampleRecord])]⟩).1 = true) ∧
    (∀ fn x, x ∈ ResultStorage.getResultsByFilename fn
      (ResultStorage.deleteResult "j1"
        ⟨[("j1", sampleRecord)], [("inv-001.pdf", [sampleRecord])]⟩).2 → x.id ≠ "j1") ∧
    (∀ p ∈ (ResultStorage.deleteResult "j1"
      ⟨[("j1", sampleRecord)], [("inv-001.pdf", [sampleRecord])]⟩).2.index, p.2 ≠ []) ∧
    ResultStorage.getResult "j1" (ResultStorage.deleteResult "j1"
      ⟨[("j1", sampleRecord)], [("inv-001.pdf", [sampleRecord])]⟩).2 = none :=
  deleteResult_prunes_index "j1"
    ⟨[("j1", sampleRecord)], [("inv-001.pdf", [sampleRecord])]⟩ sampleRecord rfl

/-- C10: when no record file exists for `id`, `deleteResult` returns
`false` and leaves the whole store — index included — untouched. -/
theorem deleteResult_absent_is_noop (id : String) (st : StorageState)
    (h : ResultStorage.getResult id st = none) :
    ResultStorage.deleteResult id st = (false, st) := by
  have hrec : alistGet id st.records = none := h
  simp [ResultStorage.deleteResult, hrec]

/-- Witness for `deleteResult_absent_is_noop` on a store whose index
still carries an entry with the deleted id while the record file is
gone: nothing is mutated. -/
theorem deleteResult_absent_is_noop_witness :
    ResultStorage.deleteResult "j1"
      ⟨[], [("inv-001.pdf", [sampleRecord])]⟩
      = (false, ⟨[], [("inv-001.pdf", [sampleRecord])]⟩) :=
  deleteResult_absent_is_noop "j1" ⟨[], [("inv-001.pdf", [sampleRecord])]⟩ rfl

/-- C8 counterexample: the JSON-RPC adapter does not reject the
unsupported extension `.txt` before submission — `getMimeType` silently
maps it to `image/png` and `processInvoice` proceeds to the network
call, even though `txt` is outside the supported-extension list that the
REST adapter checks (and which that adapter does reject). -/
theorem unsupported_extension_not_rejected_counterexample :
    MCPClient.getMimeType "invoice.txt" = "image/png" ∧
    SmartScanClient.extOf "invoice.txt" ∉ SmartScanClient.supportedTypes ∧
    exceptOk (SmartScanClient.validateFileType "invoice.txt") = false := by decide

/-- C8 (amended): the transaction REST adapter validates the filename
extension against its supported list and throws before any network
call; but the JSON-RPC adapter never rejects any filename — it maps
`.pdf`, `.png`, `.jpg`/`.jpeg` to their MIME types and defaults every
other extension to `image/png`. -/
theorem extension_validation_amended :
    (∀ fn, exceptOk (SmartScanClient.validateFileType fn) = true ↔
      SmartScanClient.extOf fn ∈ SmartScanClient.supportedTypes) ∧
    (∀ fn, MCPClient.getMimeType fn = "application/pdf" ∨
      MCPClient.getMimeType fn = "image/png" ∨
      MCPClient.getMimeType fn = "image/jpeg") := by
  constructor
  · intro fn
    by_cases h : SmartScanClient.extOf fn ∈ SmartScanClient.supportedTypes
    · simp [SmartScanClient.validateFileType, exceptOk, h]
    · simp [SmartScanClient.validateFileType, exceptOk, h]
  · intro fn
    simp only [MCPClient.getMimeType]
    split
    · exact Or.inl rfl
    · split
      · exact Or.inr (Or.inl rfl)
      · split
        · exact Or.inr (Or.inr rfl)
        · exact Or.inr (Or.inl rfl)

/-- Witness for `extension_validation_amended` at concrete filenames. -/
theorem extension_validation_amended_witness :
    exceptOk (SmartScanClient.validateFileType "inv-001.pdf") = true ∧
    (MCPClient.getMimeType "notes.txt" = "application/pdf" ∨
      MCPClient.getMimeType "notes.txt" = "image/png" ∨
      MCPClient.getMimeType "notes.txt" = "image/jpeg") :=
  ⟨(extension_validation_amended.1 "inv-001.pdf").mpr (by decide),
    extension_validation_amended.2 "notes.txt"⟩

/-- C9 counterexample: two tool responses whose JSON-RPC error objects
differ only in the numeric code produce the very same thrown error, so
the thrown error cannot carry the code. -/
theorem jsonrpc_error_code_counterexample :
    MCPClient.handleToolResponse ⟨1, none, some ⟨-32600, "Invalid Request"⟩⟩
      = MCPClient.handleToolResponse ⟨1, none, some ⟨-32601, "Invalid Request"⟩⟩ ∧
    (-32600 : Int) ≠ -32601 := ⟨rfl, by decide⟩

/-- C9 (amended): when a tool-call response carries a JSON-RPC error
object, the adapter throws an error built from the error's message
alone, prefixed `MCP tool error: `; the numeric code is dropped. -/
theorem jsonrpc_error_message_only (resp : MCPClient.MCPToolResponse)
    (e : MCPClient.MCPError) (h : resp.error = some e) :
    MCPClient.handleToolResponse resp
      = Except.error ("MCP tool error: " ++ e.message) := by
  simp [MCPClient.handleToolResponse, h]

/-- Witness for `jsonrpc_error_message_only` at a concrete response. -/
theorem jsonrpc_error_message_only_witness :
    (MCPClient.MCPToolResponse.error ⟨1, none, some ⟨-32603, "Internal error"⟩⟩
      = some ⟨-32603, "Internal error"⟩) ∧
    MCPClient.handleToolResponse ⟨1, none, some ⟨-32603, "Internal error"⟩⟩
      = Except.error ("MCP tool error: " ++ "Internal error") :=
  ⟨rfl, jsonrpc_error_message_only ⟨1, none, some ⟨-32603, "Internal error"⟩⟩
    ⟨-32603, "Internal error"⟩ rfl⟩

theorem countFlat_zero (i : String) (idx : List (String × List ProcessingResult))
    (h : ∀ q ∈ idx, ∀ x ∈ q.2, x.id ≠ i) :
    ((idx.map Prod.snd).flatten).countP (fun x => x.id == i) = 0 := by
  induction idx with
  | nil => simp
  | cons p rest ih =>
    simp only [List.map_cons, List.flatten_cons, List.countP_append]
    have h1 : p.2.countP (fun x => x.id == i) = 0 := by
      rw [List.countP_eq_zero]
      intro x hx
      simpa using h p (List.mem_cons_self _ _) x hx
    have h2 := ih (fun q hq => h q (List.mem_cons_of_mem _ hq))
    omega

theorem countFlat_put (i k : String) (b : List ProcessingResult)
    (idx : List (String × List ProcessingResult))
    (hkeys : (idx.map Prod.fst).Nodup)
    (hno : ∀ p ∈ idx, p.1 ≠ k → ∀ x ∈ p.2, x.id ≠ i) :
    (((alistPut k b idx).map Prod.snd).flatten).countP (fun x => x.id == i)
      = b.countP (fun x => x.id == i) := by
  induction idx with
  | nil => simp [alistPut]
  | cons p rest ih =>
    rw [List.map_cons] at hkeys
    rcases List.nodup_cons.mp hkeys with ⟨hnotin, hrestkeys⟩
    by_cases hp : p.1 = k
    · simp only [alistPut, if_pos hp, List.map_cons, List.flatten_cons, List.countP_append]
      have hrest : ((rest.map Prod.snd).flatten).countP (fun x => x.id == i) = 0 := by
        apply countFlat_zero
        intro q hq x hx
        refine hno q (List.mem_cons_of_mem _ hq) ?_ x hx
        intro hqk
        apply hnotin
        have hqmem : q.1 ∈ rest.map Prod.fst := List.mem_map_of_mem Prod.fst hq
        rw [hp, ← hqk]
        exact hqmem
      omega
    · simp only [alistPut, if_neg hp, List.map_cons, List.flatten_cons, List.countP_append]
      have h1 : p.2.countP (fun x => x.id == i) = 0 := by
        rw [List.countP_eq_zero]
        intro x hx
        simpa using hno p (List.mem_cons_self _ _) hp x hx
      have h2 := ih hrestkeys (fun q hq hqk => hno q (List.mem_cons_of_mem _ hq) hqk)
      omega

theorem countP_id_updateIndex_bucket (r : ProcessingResult)
    (b0 : List ProcessingResult) :
    (sortByCreatedDesc (b0.filter (fun y => y.id ≠ r.id) ++ [r])).countP
      (fun x => x.id == r.id) = 1 := by
  unfold sortByCreatedDesc
  rw [(List.perm_insertionSort _ _).countP_eq]
  rw [List.countP_append]
  have h0 : (b0.filter (fun y => y.id ≠ r.id)).countP (fun x => x.id == r.id) = 0 := by
    rw [List.countP_eq_zero]
    intro x hx
    have := of_decide_eq_true (List.mem_filter.mp hx).2
    simpa using this
  simp [h0]

theorem nodup_ids_updateIndex_bucket (r : ProcessingResult)
    (b0 : List ProcessingResult)
    (hb : (b0.map (fun x => x.id)).Nodup) :
    ((sortByCreatedDesc (b0.filter (fun y => y.id ≠ r.id) ++ [r])).map
      (fun x => x.id)).Nodup := by
  have hperm : List.Perm
      ((sortByCreatedDesc (b0.filter (fun y => y.id ≠ r.id) ++ [r])).map (fun x => x.id))
      ((b0.filter (fun y => y.id ≠ r.id) ++ [r]).map (fun x => x.id)) :=
    (List.perm_insertionSort _ _).map _
  refine hperm.symm.nodup ?_
  rw [List.map_append]
  rw [List.nodup_append]
  refine ⟨?_, by simp, ?_⟩
  · exact hb.sublist ((List.filter_sublist _).map _)
  · intro a ha hb1
    simp only [List.map_cons, List.map_nil, List.mem_cons, List.not_mem_nil, or_false] at hb1
    rcases List.mem_map.mp ha with ⟨x, hx, hxid⟩
    have hxne := of_decide_eq_true (List.mem_filter.mp hx).2
    exact hxne (hxid.trans hb1)

theorem nodup_ids_getD (fn : String) (idx : List (String × List ProcessingResult))
    (hbuckets : ∀ p ∈ idx, (p.2.map (fun x => x.id)).Nodup) :
    (((alistGet fn idx).getD []).map (fun x => x.id)).Nodup := by
  cases hg : alistGet fn idx with
  | none => simp
  | some b => simpa using hbuckets (fn, b) (alistGet_mem fn b idx hg)

theorem updateIndex_eq (r : ProcessingResult)
    (idx : List (String × List ProcessingResult)) :
    ResultStorage.updateIndex r idx = alistPut r.filename
      (sortByCreatedDesc (((alistGet r.filename idx).getD []).filter
        (fun y => y.id ≠ r.id) ++ [r])) idx := rfl

theorem saveResult_index_eq (r : ProcessingResult) (st : StorageState) :
    (ResultStorage.saveResult r st).index = alistPut r.filename
      (sortByCreatedDesc ((((alistGet r.filename st.index).getD []).filter
        (fun y => y.id ≠ r.id)) ++ [r])) st.index := rfl

/-- C6: calling `saveResult` twice with the same record leaves the store
as one call does — the per-id record files are identical, `getAllResults`
contains exactly one record with the record's id after either one or two
calls, and no filename's index bucket contains two entries with the same
id.  The store is assumed well formed: index keys are distinct, each
bucket's ids are distinct, and the record's id does not sit in another
filename's bucket. -/
theorem saveResult_idempotent (r : ProcessingResult) (st : StorageState)
    (hkeys : (st.index.map Prod.fst).Nodup)
    (hbuckets : ∀ p ∈ st.index, (p.2.map (fun x => x.id)).Nodup)
    (helse : ∀ p ∈ st.index, p.1 ≠ r.filename → ∀ x ∈ p.2, x.id ≠ r.id) :
    ((ResultStorage.saveResult r (ResultStorage.saveResult r st)).records
      = (ResultStorage.saveResult r st).records) ∧
    ((ResultStorage.getAllResults (ResultStorage.saveResult r st)).countP
      (fun x => x.id == r.id) = 1) ∧
    ((ResultStorage.getAllResults
        (ResultStorage.saveResult r (ResultStorage.saveResult r st))).countP
      (fun x => x.id == r.id) = 1) ∧
    (∀ p ∈ (ResultStorage.saveResult r st).index, (p.2.map (fun x => x.id)).Nodup) ∧
    (∀ p ∈ (ResultStorage.saveResult r (ResultStorage.saveResult r st)).index,
      (p.2.map (fun x => x.id)).Nodup) := by
  have hb0 : (((alistGet r.filename st.index).getD []).map (fun x => x.id)).Nodup :=
    nodup_ids_getD r.filename st.index hbuckets
  have hb1 : ((sortByCreatedDesc ((((alistGet r.filename st.index).getD []).filter
      (fun y => y.id ≠ r.id)) ++ [r])).map (fun x => x.id)).Nodup :=
    nodup_ids_updateIndex_bucket r _ hb0
  have hidx2 : (ResultStorage.saveResult r (ResultStorage.saveResult r st)).index
      = alistPut r.filename
        (sortByCreatedDesc (((sortByCreatedDesc ((((alistGet r.filename st.index).getD []).filter
          (fun y => y.id ≠ r.id)) ++ [r])).filter (fun y => y.id ≠ r.id)) ++ [r])) st.index := by
    rw [saveResult_index_eq, saveResult_index_eq, alistGet_put_same]
    simp only [Option.getD_some]
    rw [alistPut_put_same]
  refine ⟨?_, ?_, ?_, ?_, ?_⟩
  · show alistPut r.id r (alistPut r.id r st.records) = alistPut r.id r st.records
    exact alistPut_put_same r.id r r st.records
  · show (sortByCreatedDesc (((ResultStorage.saveResult r st).index.map Prod.snd).flatten)).countP
      (fun x => x.id == r.id) = 1
    rw [saveResult_index_eq]
    unfold sortByCreatedDesc
    rw [(List.perm_insertionSort _ _).countP_eq]
    rw [countFlat_put r.id r.filename _ st.index hkeys helse]
    exact countP_id_updateIndex_bucket r _
  · show (sortByCreatedDesc
      (((ResultStorage.saveResult r (ResultStorage.saveResult r st)).index.map
        Prod.snd).flatten)).countP (fun x => x.id == r.id) = 1
    rw [hidx2]
    unfold sortByCreatedDesc
    rw [(List.perm_insertionSort _ _).countP_eq]
    rw [countFlat_put r.id r.filename _ st.index hkeys helse]
    exact countP_id_updateIndex_bucket r _
  · intro p hp
    rw [saveResult_index_eq] at hp
    rcases mem_alistPut _ _ _ _ hp with h | h
    · rw [h]
      exact hb1
    · exact hbuckets p h
  · intro p hp
    rw [hidx2] at hp
    rcases mem_alistPut _ _ _ _ hp with h | h
    · rw [h]
      exact nodup_ids_updateIndex_bucket r _ hb1
    · exact hbuckets p h

/-- Witness for `saveResult_idempotent`: the sample record saved twice
into the empty store. -/
theorem saveResult_idempotent_witness :
    ((ResultStorage.saveResult sampleRecord
        (ResultStorage.saveResult sampleRecord emptyStore)).records
      = (ResultStorage.saveResult sampleRecord emptyStore).records) ∧
    ((ResultStorage.getAllResults
        (ResultStorage.saveResult sampleRecord emptyStore)).countP
      (fun x => x.id == sampleRecord.id) = 1) ∧
    ((ResultStorage.getAllResults (ResultStorage.saveResult sampleRecord
        (ResultStorage.saveResult sampleRecord emptyStore))).countP
      (fun x => x.id == sampleRecord.id) = 1) ∧
    (∀ p ∈ (ResultStorage.saveResult sampleRecord emptyStore).index,
      (p.2.map (fun x => x.id)).Nodup) ∧
    (∀ p ∈ (ResultStorage.saveResult sampleRecord
        (ResultStorage.saveResult sampleRecord emptyStore)).index,
      (p.2.map (fun x => x.id)).Nodup) :=
  saveResult_idempotent sampleRecord emptyStore (by simp [emptyStore])
    (by simp [emptyStore]) (by simp [emptyStore])
